import Mathlib

/-
Verification of the desktop-trampoline client (src/desktop-trampoline.c).

The C program is a short-lived loopback TCP client.  This file gives a
shallow embedding of that program:

* C strings (argv entries, environment entries, buffers) are modelled as
  `Bytes := List Nat`, holding the bytes of the string before its
  terminating 0 byte.  Entries handed to a process by the OS never
  contain an interior 0 byte, so this representation is exact for them.
* socket, stdin and write outcomes are supplied by an explicit oracle
  (the `World` structure): each call of the C program to an external
  primitive consumes the next entry of the corresponding oracle list.
* the observable behaviour (bytes written to the socket, frames read,
  output printed, socket lifecycle) is collected in a trace of events.

Definitions are translated from the C source; the one exception is the
2-byte length framing of `writeSocket`, which lives in socket.c (not part
of the sources here) and is modelled from the specification, as marked.
-/

/-- Byte strings: the contents of a C string before its 0 terminator,
or a raw byte buffer. -/
abbrev Bytes := List Nat

/-- Bytes of a Lean string literal (ASCII in all uses here). -/
def strB (s : String) : Bytes := s.data.map (fun c => c.toNat)

/-! ## Environment filter (isValidEnvVar, desktop-trampoline.c lines 21-46) -/

/-- The fixed allow-list `sValidEnvVars` of desktop-trampoline.c. -/
def sValidEnvVarsM : List Bytes :=
  [strB "DESKTOP_TRAMPOLINE_IDENTIFIER",
   strB "DESKTOP_TRAMPOLINE_TOKEN",
   strB "DESKTOP_USERNAME",
   strB "DESKTOP_ENDPOINT"]

/-- Number of allow-listed names; also the capacity of the
`validEnvVars` array in `runTrampolineClient`. -/
def NUMBER_OF_VALID_ENV_VARS : Nat := 4

/-- Model of `isValidEnvVar`: for each candidate of the allow-list the C
code tests `strncmp(env, candidate, strlen(candidate)) == 0`, then
`strlen(env) > strlen(candidate)`, then `env[strlen(candidate)] == 61`
(61 is the byte of the equals sign).  The loop returns 1 on the first
match, 0 if none matches. -/
def isValidEnvVar (env : Bytes) : Bool :=
  sValidEnvVarsM.any fun candidate =>
    candidate.isPrefixOf env
      && decide (candidate.length < env.length)
      && (env[candidate.length]? == some 61)

/-! ## Frame decoder (readDelimitedString, desktop-trampoline.c lines 48-82) -/

/-- One outcome of a `readSocket` call: a transport error (-1), or a
chunk of bytes delivered by the peer (possibly fewer than requested;
the empty chunk models a read returning 0). -/
inductive SockRead where
  | err : SockRead
  | chunk : Bytes → SockRead
deriving DecidableEq

/-- Model of one `readSocket(socket, buf, want)` call against the oracle
list of read outcomes.  Returns (return value, bytes delivered, rest of
the oracle).  A request of 0 bytes returns 0 and consumes nothing; an
exhausted oracle returns 0 (no more data); an error entry returns -1; a
chunk delivers at most `want` of its bytes. -/
def readSocketM : List SockRead → Nat → Int × Bytes × List SockRead
  | ins, 0 => (0, [], ins)
  | [], _ => (0, [], [])
  | SockRead.err :: rest, _ => (-1, [], rest)
  | SockRead.chunk b :: rest, want => (((b.take want).length : Int), b.take want, rest)

/-- The read loop of `readDelimitedString`: repeatedly call
`readSocket(socket, buffer + total, outputLength - total)`, abort with
-1 (here: `none`) on a read error, stop when a read returns 0, append
the delivered bytes otherwise.  The branches inline `readSocketM` on the
head of the oracle so that the recursion is structural. -/
def rdsLoop (ins : List SockRead) (need : Nat) (acc : Bytes) :
    Option Bytes × List SockRead :=
  if need ≤ acc.length then
    -- the C loop requests `need - total = 0` bytes; the read returns 0
    -- without consuming anything and the loop exits
    (some acc, ins)
  else
    match ins with
    | [] => (some acc, [])
    | SockRead.err :: rest => (none, rest)
    | SockRead.chunk b :: rest =>
      let d := b.take (need - acc.length)
      if d.length = 0 then (some acc, rest)
      else rdsLoop rest need (acc ++ d)

/-- Model of `readDelimitedString(socket, buffer, bufferSize)`: read a
2-byte little-endian length with a single `readSocket` call (fewer than
2 bytes is an error), fail if the declared length exceeds `bufferSize`,
otherwise run the read loop.  `none` models the -1 return; `some b`
models the return value `b.length` with the buffer holding `b` followed
by the appended 0 terminator.  The second component is the unconsumed
part of the read oracle. -/
def readDelimitedString (ins : List SockRead) (bufferSize : Nat) :
    Option Bytes × List SockRead :=
  let r := readSocketM ins 2
  if r.1 < 2 then (none, r.2.2)
  else
    let outputLength := r.2.1.headD 0 + 256 * r.2.1.tail.headD 0
    if bufferSize < outputLength then (none, r.2.2)
    else rdsLoop r.2.2 outputLength []

/-- Return value of `readDelimitedString` as the C caller sees it. -/
def reportedLen : Option Bytes → Int
  | none => -1
  | some b => (b.length : Int)

/-- Modelled from the spec: `writeSocket` (socket.c, which is not among
the sources here) transmits a frame as a 2-byte length prefix in a fixed
byte order, little-endian to match the decoder, followed by the payload
bytes. -/
def encodeFrame (p : Bytes) : Bytes :=
  p.length % 256 :: (p.length / 256) % 256 :: p

/-- A cooperative delivery of one encoded frame to the decoder: the
2 header bytes answer the header read, the payload (when nonempty)
answers the payload read. -/
def frameStream (p : Bytes) : List SockRead :=
  SockRead.chunk ((encodeFrame p).take 2) ::
    (if p.isEmpty then [] else [SockRead.chunk ((encodeFrame p).drop 2)])

/-- `BUFFER_LENGTH` of desktop-trampoline.c. -/
def BUFFER_LENGTH : Nat := 4096

/-! ## Startup helpers (getenv, atoi) -/

/-- Model of `getenv(name)` over the process environment: the first
entry whose bytes start with `name` followed by the equals byte; its
value is everything after that byte. -/
def getenvM (envp : List Bytes) (nm : Bytes) : Option Bytes :=
  match envp.find? (fun e => (nm ++ [61]).isPrefixOf e) with
  | some e => some (e.drop (nm.length + 1))
  | none => none

/-- Name of the required port variable. -/
def desktopPortName : Bytes := strB "DESKTOP_PORT"

/-- Space test of `atoi` (isspace on the C locale). -/
def isSpaceB (b : Nat) : Bool := b == 32 || (decide (9 ≤ b) && decide (b ≤ 13))

/-- Digit test of `atoi`. -/
def isDigitB (b : Nat) : Bool := decide (48 ≤ b) && decide (b ≤ 57)

/-- Value of the maximal digit run at the front of the bytes. -/
def digitsVal : Bytes → Nat → Nat
  | [], acc => acc
  | b :: bs, acc => if isDigitB b then digitsVal bs (acc * 10 + (b - 48)) else acc

/-- Model of `atoi`: skip whitespace, optional sign (45 is the minus
byte, 43 the plus byte), then the value of the leading digit run; a
string with no leading digits yields 0. -/
def atoiM (s : Bytes) : Int :=
  match s.dropWhile isSpaceB with
  | 45 :: rest => -(digitsVal rest 0 : Int)
  | 43 :: rest => (digitsVal rest 0 : Int)
  | t => (digitsVal t 0 : Int)

/-- Conversion of the `atoi` result to `unsigned short desktopPort`. -/
def toPort (s : Bytes) : Nat := ((atoiM s).emod 65536).toNat

/-! ## Observable events of one invocation -/

/-- Observable behaviour of the client, in program order.  `wrote b`
is a successful `writeSocket` call putting the bytes `b` on the wire;
`writeFailed b` is a failed one (for the checked calls the macro
`WRITE_STRING_OR_EXIT` or the stdin branch then returns 1).  `wroteTerm`
is the final unchecked `writeSocket(socket, "\x00", 1)` whose outcome
the C code ignores.  `gotStdout`/`gotStderr` are successful
`readDelimitedString` calls with the accumulated payload; `recvFailed`
is one returning -1.  `outStdout b`/`outStderr b` are the bytes put on
the local stream by `fprintf(stream, "%s", buffer)`. -/
inductive Ev where
  | opened : Ev
  | connected : Nat → Ev
  | connectFailed : Nat → Ev
  | wrote : Bytes → Ev
  | writeFailed : Bytes → Ev
  | wroteTerm : Bool → Ev
  | gotStdout : Bytes → Ev
  | gotStderr : Bytes → Ev
  | recvFailed : Ev
  | outStdout : Bytes → Ev
  | outStderr : Bytes → Ev
  | closed : Ev
deriving DecidableEq

/-- Bytes printed by `fprintf(stream, "%s", buffer)` for a buffer
holding `b` followed by a 0 terminator: everything before the first
0 byte. -/
def cstr (b : Bytes) : Bytes := b.takeWhile (fun x => x != 0)

/-- Oracle for one invocation: the invocation context plus the outcome
of every external call, consumed in program order.  `args` is
`argv[1..argc-1]`, so `argc - 1 = args.length`.  `sendOk` lists the
outcomes of the `writeSocket` calls (`true` = success; an exhausted
list means every further call succeeds).  `stdinRs` lists the outcomes
of the `read(0, buffer, BUFFER_LENGTH)` calls (`none` = -1; an
exhausted list means the read returns 0, end of input).  `sockIn` is
the read oracle of the receive phase. -/
structure World where
  args : List Bytes
  envp : List Bytes
  netOk : Bool
  openOk : Bool
  connectOk : Bool
  sendOk : List Bool
  stdinRs : List (Option Bytes)
  sockIn : List SockRead

/-- Next entry of a write-outcome oracle (exhausted = success). -/
def takeOk : List Bool → Bool × List Bool
  | [] => (true, [])
  | b :: bs => (b, bs)

/-- Result of a run of consecutive `WRITE_STRING_OR_EXIT` sends. -/
structure SendRes where
  evs : List Ev
  oks : List Bool
  ok : Bool
deriving DecidableEq

/-- A run of `WRITE_STRING_OR_EXIT(_, s)` calls: each sends the string
bytes plus the 0 terminator (`strlen(s) + 1` bytes); the first failure
returns 1 from `runTrampolineClient`, skipping the remaining sends. -/
def sendStrs : List Bytes → List Bool → SendRes
  | [], oks => ⟨[], oks, true⟩
  | s :: ss, oks =>
    if (takeOk oks).1 then
      let r := sendStrs ss (takeOk oks).2
      ⟨Ev.wrote (s ++ [0]) :: r.evs, r.oks, r.ok⟩
    else ⟨[Ev.writeFailed (s ++ [0])], (takeOk oks).2, false⟩

/-- Decimal bytes of a nonnegative count, as printed by
`snprintf(_, _, "%d", n)`. -/
def decimalB (n : Nat) : Bytes := strB (toString n)

/-- Events of a successful run of sends. -/
def wroteEvs (ss : List Bytes) : List Ev := ss.map fun s => Ev.wrote (s ++ [0])

/-- Result of the stdin relay loop. -/
structure StdinRes where
  evs : List Ev
  oks : List Bool
  fatal : Bool
deriving DecidableEq

/-- Model of the stdin relay do-while loop (desktop-trampoline.c lines
149-171).  Each iteration reads a chunk: on -1 with nothing forwarded
so far the loop breaks (no stdin), on -1 after forwarding it returns 1
(`fatal`); otherwise the chunk (possibly empty, when the read returned
0) is written to the socket, a write failure returns 1, and the loop
continues while the read was positive.  An exhausted read oracle is a
read returning 0, like an explicit `some []` entry. -/
def stdinLoop : List (Option Bytes) → List Bool → Nat → StdinRes
  | [], oks, _ =>
    if (takeOk oks).1 then ⟨[Ev.wrote []], (takeOk oks).2, false⟩
    else ⟨[Ev.writeFailed []], (takeOk oks).2, true⟩
  | none :: _, oks, total => ⟨[], oks, total != 0⟩
  | some b :: rest, oks, total =>
    if (takeOk oks).1 then
      if b.isEmpty then ⟨[Ev.wrote b], (takeOk oks).2, false⟩
      else
        let r := stdinLoop rest (takeOk oks).2 (total + b.length)
        ⟨Ev.wrote b :: r.evs, r.oks, r.fatal⟩
    else ⟨[Ev.writeFailed b], (takeOk oks).2, true⟩

/-- The part of `runTrampolineClient` after a successful connect:
send the argument count and the arguments, filter the environment and
send its count and entries, relay stdin, send the terminator byte with
an unchecked write, then read and print the two response frames.
Returns the int result of `runTrampolineClient` and the events. -/
def afterConnect (w : World) : Nat × List Ev :=
  let r1 := sendStrs (decimalB w.args.length :: w.args) w.sendOk
  if r1.ok = false then (1, r1.evs)
  else
    let filtered := w.envp.filter (fun e => isValidEnvVar e)
    let r2 := sendStrs (decimalB filtered.length :: filtered) r1.oks
    if r2.ok = false then (1, r1.evs ++ r2.evs)
    else
      let r3 := stdinLoop w.stdinRs r2.oks 0
      if r3.fatal then (1, r1.evs ++ r2.evs ++ r3.evs)
      else
        let tOk := (takeOk r3.oks).1
        let d1 := readDelimitedString w.sockIn BUFFER_LENGTH
        match d1.1 with
        | none => (1, r1.evs ++ r2.evs ++ r3.evs ++ [Ev.wroteTerm tOk, Ev.recvFailed])
        | some b1 =>
          let d2 := readDelimitedString d1.2 BUFFER_LENGTH
          match d2.1 with
          | none => (1, r1.evs ++ r2.evs ++ r3.evs ++
              [Ev.wroteTerm tOk, Ev.gotStdout b1, Ev.outStdout (cstr b1), Ev.recvFailed])
          | some b2 => (0, r1.evs ++ r2.evs ++ r3.evs ++
              [Ev.wroteTerm tOk, Ev.gotStdout b1, Ev.outStdout (cstr b1),
               Ev.gotStderr b2, Ev.outStderr (cstr b2)])

/-- Model of `runTrampolineClient`: check `DESKTOP_PORT` (missing value
returns 1 before any socket exists), convert it with `atoi` truncated
to unsigned short, open the socket (on success `*outSocket` is set, the
middle component below), connect, then run the pipeline.  Result:
(int result, socket was opened, events). -/
def runTrampolineClient (w : World) : Nat × Bool × List Ev :=
  match getenvM w.envp desktopPortName with
  | none => (1, false, [])
  | some ps =>
    if w.openOk = false then (1, false, [])
    else if w.connectOk = false then (1, true, [Ev.opened, Ev.connectFailed (toPort ps)])
    else
      let r := afterConnect w
      (r.1, true, Ev.opened :: Ev.connected (toPort ps) :: r.2)

/-- Model of `main`: initialize the network (failure returns 1 with no
socket activity), run the client, close the socket iff it was opened.
Result: (exit code, events). -/
def runMain (w : World) : Nat × List Ev :=
  if w.netOk = false then (1, [])
  else
    let r := runTrampolineClient w
    (r.1, r.2.2 ++ if r.2.1 then [Ev.closed] else [])

/-! ## The validEnvVars collection loop (desktop-trampoline.c lines 121-128) -/

/-- The stores `validEnvVars[envc] = *env; envc++` performed by the
collection loop, starting from counter `envc`: one (index, entry) pair
per environment entry accepted by the filter. -/
def envStoresGo : List Bytes → Nat → List (Nat × Bytes)
  | [], _ => []
  | e :: rest, envc =>
    if isValidEnvVar e then (envc, e) :: envStoresGo rest (envc + 1)
    else envStoresGo rest envc

/-- The stores performed by the loop, with the counter starting at 0. -/
def envStores (envp : List Bytes) : List (Nat × Bytes) := envStoresGo envp 0

/-! ## Lemmas on the environment filter -/

lemma cons_isPrefixOf_cons (a b : Nat) (as bs : Bytes) :
    (a :: as).isPrefixOf (b :: bs) = (a == b && as.isPrefixOf bs) := rfl

/-- The membership test of one allow-list candidate succeeds on
`name ++ 61 :: value` exactly when the candidate is `name`, provided
neither the candidate nor the name contains the equals byte. -/
lemma candidate_test_iff (c : Bytes) : ∀ name value : Bytes, 61 ∉ c → 61 ∉ name →
    ((c.isPrefixOf (name ++ 61 :: value)
        && decide (c.length < (name ++ 61 :: value).length)
        && ((name ++ 61 :: value)[c.length]? == some 61)) = true ↔ c = name) := by
  induction c with
  | nil =>
    intro name value _ hn
    cases name with
    | nil => simp
    | cons n ns =>
      have hne : n ≠ 61 := fun h => hn (by simp [h])
      simp [List.cons_append, hne]
  | cons a as ih =>
    intro name value hc hn
    have ha : a ≠ 61 := fun h => hc (by simp [h])
    have hc' : 61 ∉ as := fun h => hc (List.mem_cons_of_mem _ h)
    cases name with
    | nil =>
      have hab : (a == 61) = false := by simp [ha]
      simp [cons_isPrefixOf_cons, hab]
    | cons n ns =>
      have hn' : 61 ∉ ns := fun h => hn (List.mem_cons_of_mem _ h)
      have := ih ns value hc' hn'
      simp only [List.cons_append, cons_isPrefixOf_cons, List.length_cons,
        List.getElem?_cons_succ, Bool.and_eq_true, beq_iff_eq,
        decide_eq_true_eq, Nat.add_lt_add_iff_right, List.cons_eq_cons] at this ⊢
      constructor
      · rintro ⟨⟨⟨hae, hpre⟩, hlt⟩, hel⟩
        exact ⟨hae, this.mp ⟨⟨hpre, hlt⟩, hel⟩⟩
      · rintro ⟨hae, hrest⟩
        obtain ⟨⟨hpre, hlt⟩, hel⟩ := this.mpr hrest
        exact ⟨⟨⟨hae, hpre⟩, hlt⟩, hel⟩

/-- No allow-list candidate contains the equals byte. -/
lemma allow_no_eq : ∀ c ∈ sValidEnvVarsM, 61 ∉ c := by decide

/-- No allow-list candidate is a proper extension of another. -/
lemma allow_no_ext : ∀ c ∈ sValidEnvVarsM, ∀ d ∈ sValidEnvVarsM,
    c.isPrefixOf d = true → c = d := by decide

lemma isPrefixOf_append_self (x rest : Bytes) : x.isPrefixOf (x ++ rest) = true := by
  induction x with
  | nil => simp
  | cons a as iha => simp [cons_isPrefixOf_cons, iha]

/-- The filter on a well-formed entry accepts exactly the allow-listed
names. -/
lemma isValidEnvVar_iff (name value : Bytes) (hn : 61 ∉ name) :
    isValidEnvVar (name ++ 61 :: value) = true ↔ name ∈ sValidEnvVarsM := by
  unfold isValidEnvVar
  rw [List.any_eq_true]
  constructor
  · rintro ⟨c, hcmem, htest⟩
    have hc := allow_no_eq c hcmem
    have := (candidate_test_iff c name value hc hn).mp htest
    exact this ▸ hcmem
  · intro hm
    exact ⟨name, hm, (candidate_test_iff name name value (allow_no_eq name hm) hn).mpr rfl⟩

/-- An allow-listed name extended before the equals byte never passes
the filter. -/
lemma isValidEnvVar_ext_false (x extra value : Bytes)
    (hx : x ∈ sValidEnvVarsM) (hne : extra ≠ []) (he : 61 ∉ extra) :
    isValidEnvVar ((x ++ extra) ++ 61 :: value) = false := by
  have hxe : 61 ∉ x ++ extra := by
    intro h
    rcases List.mem_append.mp h with h1 | h1
    · exact allow_no_eq x hx h1
    · exact he h1
  by_contra hcon
  have htrue : isValidEnvVar ((x ++ extra) ++ 61 :: value) = true := by
    cases h : isValidEnvVar ((x ++ extra) ++ 61 :: value) with
    | false => exact absurd h hcon
    | true => rfl
  have hmem := (isValidEnvVar_iff (x ++ extra) value hxe).mp htrue
  have := allow_no_ext x hx (x ++ extra) hmem (isPrefixOf_append_self x extra)
  have hlen := congrArg List.length this
  simp at hlen
  exact hne hlen

/-! ## Lemmas on the frame decoder -/

/-- Cooperative decoding of one encoded frame leaves the rest of the
stream untouched and returns exactly the payload. -/
lemma decode_frameStream (p : Bytes) (rest : List SockRead) (bufferSize : Nat)
    (h1 : p.length ≤ bufferSize) (h2 : bufferSize < 65536) :
    readDelimitedString (frameStream p ++ rest) bufferSize = (some p, rest) := by
  have hlen : p.length % 256 + 256 * (p.length / 256 % 256) = p.length := by omega
  cases p with
  | nil =>
    simp only [frameStream, encodeFrame, List.isEmpty_nil, ite_true,
      List.length_nil, List.cons_append, readDelimitedString, readSocketM]
    norm_num
    rw [rdsLoop.eq_def]
    simp
  | cons a t =>
    simp only [List.length_cons] at h1 hlen
    simp only [frameStream, encodeFrame, List.isEmpty_cons, Bool.false_eq_true, ite_false,
      List.take_succ_cons, List.take_zero, List.drop_succ_cons, List.drop_zero,
      List.cons_append, List.nil_append, List.length_cons, readDelimitedString, readSocketM]
    simp only [List.take_succ_cons, List.take_nil, List.length_cons, List.length_nil]
    norm_num
    rw [hlen, if_neg (by omega)]
    rw [rdsLoop.eq_def]
    simp only [List.length_nil, Nat.sub_zero, if_neg (by omega : ¬(t.length + 1 ≤ 0))]
    rw [List.take_of_length_le (by simp)]
    simp only [List.length_cons, if_neg (Nat.succ_ne_zero t.length)]
    rw [rdsLoop.eq_def]
    simp

/-! ## Trace machinery -/

/-- Classifier for failed checked writes. -/
def isWF : Ev → Bool
  | Ev.writeFailed _ => true
  | _ => false

/-- Classifier for failed frame reads. -/
def isRF : Ev → Bool
  | Ev.recvFailed => true
  | _ => false

/-- Events satisfying `p` occur only as the last event of the list. -/
def evLast (p : Ev → Bool) (evs : List Ev) : Prop :=
  ∀ pre e post, evs = pre ++ e :: post → p e = true → post = []

lemma evLast_nil (p : Ev → Bool) : evLast p [] := by
  intro pre e post h _
  exact absurd h (by simp)

lemma evLast_of_none (p : Ev → Bool) (evs : List Ev)
    (h : ∀ e ∈ evs, p e = false) : evLast p evs := by
  intro pre e post heq hpe
  have : e ∈ evs := heq ▸ List.mem_append_right pre (List.mem_cons_self e post)
  rw [h e this] at hpe
  exact absurd hpe (by simp)

lemma evLast_append (p : Ev → Bool) (xs ys : List Ev)
    (hx : ∀ e ∈ xs, p e = false) (hy : evLast p ys) : evLast p (xs ++ ys) := by
  induction xs with
  | nil => simpa using hy
  | cons x xs ihx =>
    intro pre e post heq hpe
    cases pre with
    | nil =>
      simp only [List.nil_append] at heq
      obtain ⟨hxe, -⟩ := List.cons_eq_cons.mp heq
      rw [← hxe, hx x (List.mem_cons_self x xs)] at hpe
      exact absurd hpe (by simp)
    | cons q pre2 =>
      simp only [List.cons_append, List.cons_eq_cons] at heq
      exact ihx (fun e he => hx e (List.mem_cons_of_mem x he)) pre2 e post heq.2 hpe

lemma evLast_singleton (p : Ev → Bool) (x : Ev) : evLast p [x] := by
  intro pre e post heq _
  cases pre with
  | nil =>
    simp only [List.nil_append] at heq
    exact (List.cons_eq_cons.mp heq).2.symm
  | cons q pre2 =>
    simp only [List.cons_append, List.cons_eq_cons] at heq
    exact absurd heq.2.symm (by simp)

/-! ## Lemmas on the send loop -/

lemma sendStrs_nil_oks (ss : List Bytes) :
    sendStrs ss [] = ⟨wroteEvs ss, [], true⟩ := by
  induction ss with
  | nil => rfl
  | cons s ss ih => simp [sendStrs, takeOk, ih, wroteEvs]

/-- Every event of a send run is a `wrote` or a `writeFailed`. -/
lemma sendStrs_shape (ss : List Bytes) (oks : List Bool) :
    ∀ e ∈ (sendStrs ss oks).evs,
      (∃ b, e = Ev.wrote b) ∨ (∃ b, e = Ev.writeFailed b) := by
  induction ss generalizing oks with
  | nil => simp [sendStrs]
  | cons s ss ih =>
    intro e he
    rw [sendStrs] at he
    by_cases h : (takeOk oks).1 = true
    · simp only [if_pos h, List.mem_cons] at he
      rcases he with he | he
      · exact Or.inl ⟨s ++ [0], he⟩
      · exact ih (takeOk oks).2 e he
    · simp only [if_neg h, List.mem_singleton] at he
      exact Or.inr ⟨s ++ [0], he⟩

/-- A successful send run contains no failed write. -/
lemma sendStrs_ok_wrotes (ss : List Bytes) (oks : List Bool)
    (hok : (sendStrs ss oks).ok = true) :
    ∀ e ∈ (sendStrs ss oks).evs, ∃ b, e = Ev.wrote b := by
  induction ss generalizing oks with
  | nil => simp [sendStrs]
  | cons s ss ih =>
    intro e he
    rw [sendStrs] at he hok
    by_cases h : (takeOk oks).1 = true
    · simp only [if_pos h, List.mem_cons] at he hok
      rcases he with he | he
      · exact ⟨s ++ [0], he⟩
      · exact ih (takeOk oks).2 hok e he
    · simp only [if_neg h] at hok
      exact absurd hok (by simp)

/-- A failed write ends the events of a send run. -/
lemma sendStrs_evLast (ss : List Bytes) (oks : List Bool) :
    evLast isWF (sendStrs ss oks).evs := by
  induction ss generalizing oks with
  | nil => exact evLast_nil _
  | cons s ss ih =>
    rw [sendStrs]
    by_cases h : (takeOk oks).1 = true
    · simp only [if_pos h]
      exact evLast_append isWF [Ev.wrote (s ++ [0])] _ (by simp [isWF]) (ih (takeOk oks).2)
    · simp only [if_neg h]
      exact evLast_singleton _ _

/-! ## Lemmas on the stdin relay loop -/

/-- Cooperative relay: chunks of data, all writes succeeding, ended by
a read returning 0.  The final zero-byte write puts no bytes on the
wire. -/
lemma stdinLoop_chunks (chunks : List Bytes) :
    ∀ total, (∀ c ∈ chunks, c ≠ []) →
      stdinLoop (chunks.map some) [] total =
        ⟨chunks.map Ev.wrote ++ [Ev.wrote []], [], false⟩ := by
  induction chunks with
  | nil => intro total _; rfl
  | cons c cs ih =>
    intro total hc
    have hcne : ¬c.isEmpty = true := by
      simp [List.isEmpty_iff]
      exact hc c (List.mem_cons_self c cs)
    rw [List.map_cons, stdinLoop]
    simp only [takeOk, if_pos rfl, if_neg hcne]
    rw [ih (total + c.length) (fun d hd => hc d (List.mem_cons_of_mem c hd))]
    simp

/-- A read error once data has been forwarded is fatal: the loop stops
with the events of the forwarded chunks, and the caller returns 1. -/
lemma stdinLoop_err_after (chunks : List Bytes) :
    ∀ total rest, (∀ c ∈ chunks, c ≠ []) → (chunks = [] → total ≠ 0) →
      stdinLoop (chunks.map some ++ none :: rest) [] total =
        ⟨chunks.map Ev.wrote, [], true⟩ := by
  induction chunks with
  | nil =>
    intro total rest _ htot
    have : (total != 0) = true := by
      simp only [bne_iff_ne, ne_eq]
      exact htot rfl
    simp [stdinLoop, this]
  | cons c cs ih =>
    intro total rest hc htot
    have hcne : ¬c.isEmpty = true := by
      simp [List.isEmpty_iff]
      exact hc c (List.mem_cons_self c cs)
    rw [List.map_cons, List.cons_append, stdinLoop]
    simp only [takeOk, if_pos rfl, if_neg hcne]
    rw [ih (total + c.length) rest (fun d hd => hc d (List.mem_cons_of_mem c hd))
      (fun _ => by
        have : c.length ≠ 0 := by
          simpa [List.length_eq_zero] using hc c (List.mem_cons_self c cs)
        omega)]
    simp

/-- Every event of the stdin loop is a `wrote` or a `writeFailed`. -/
lemma stdinLoop_shape (rs : List (Option Bytes)) (oks : List Bool) (total : Nat) :
    ∀ e ∈ (stdinLoop rs oks total).evs,
      (∃ b, e = Ev.wrote b) ∨ (∃ b, e = Ev.writeFailed b) := by
  induction rs generalizing oks total with
  | nil =>
    intro e he
    rw [stdinLoop] at he
    by_cases h : (takeOk oks).1 = true
    · simp only [if_pos h, List.mem_singleton] at he
      exact Or.inl ⟨[], he⟩
    · simp only [if_neg h, List.mem_singleton] at he
      exact Or.inr ⟨[], he⟩
  | cons r rs ih =>
    intro e he
    cases r with
    | none =>
      rw [stdinLoop] at he
      exact absurd he (by simp)
    | some b =>
      rw [stdinLoop] at he
      by_cases h : (takeOk oks).1 = true
      · by_cases hb : b.isEmpty = true
        · simp only [if_pos h, if_pos hb, List.mem_singleton] at he
          exact Or.inl ⟨b, he⟩
        · simp only [if_pos h, if_neg hb, List.mem_cons] at he
          rcases he with he | he
          · exact Or.inl ⟨b, he⟩
          · exact ih (takeOk oks).2 (total + b.length) e he
      · simp only [if_neg h, List.mem_singleton] at he
        exact Or.inr ⟨b, he⟩

/-- A non-fatal stdin relay contains no failed write. -/
lemma stdinLoop_ok_wrotes (rs : List (Option Bytes)) (oks : List Bool) (total : Nat)
    (hok : (stdinLoop rs oks total).fatal = false) :
    ∀ e ∈ (stdinLoop rs oks total).evs, ∃ b, e = Ev.wrote b := by
  induction rs generalizing oks total with
  | nil =>
    intro e he
    rw [stdinLoop] at he hok
    by_cases h : (takeOk oks).1 = true
    · simp only [if_pos h, List.mem_singleton] at he
      exact ⟨[], he⟩
    · simp only [if_neg h] at hok
      exact absurd hok (by simp)
  | cons r rs ih =>
    intro e he
    cases r with
    | none =>
      rw [stdinLoop] at he
      exact absurd he (by simp)
    | some b =>
      rw [stdinLoop] at he hok
      by_cases h : (takeOk oks).1 = true
      · by_cases hb : b.isEmpty = true
        · simp only [if_pos h, if_pos hb, List.mem_singleton] at he
          exact ⟨b, he⟩
        · simp only [if_pos h, if_neg hb, List.mem_cons] at he hok
          rcases he with he | he
          · exact ⟨b, he⟩
          · exact ih (takeOk oks).2 (total + b.length) hok e he
      · simp only [if_neg h] at hok
        exact absurd hok (by simp)

/-- A failed write ends the events of the stdin relay. -/
lemma stdinLoop_evLast (rs : List (Option Bytes)) (oks : List Bool) (total : Nat) :
    evLast isWF (stdinLoop rs oks total).evs := by
  induction rs generalizing oks total with
  | nil =>
    rw [stdinLoop]
    by_cases h : (takeOk oks).1 = true
    · simp only [if_pos h]; exact evLast_singleton _ _
    · simp only [if_neg h]; exact evLast_singleton _ _
  | cons r rs ih =>
    cases r with
    | none => rw [stdinLoop]; exact evLast_nil _
    | some b =>
      rw [stdinLoop]
      by_cases h : (takeOk oks).1 = true
      · by_cases hb : b.isEmpty = true
        · simp only [if_pos h, if_pos hb]; exact evLast_singleton _ _
        · simp only [if_pos h, if_neg hb]
          exact evLast_append isWF [Ev.wrote b] _ (by simp [isWF])
            (ih (takeOk oks).2 (total + b.length))
      · simp only [if_neg h]; exact evLast_singleton _ _

/-! ## Lemmas on the pipeline after a successful connect -/

lemma shape_not_mem (evs : List Ev)
    (hs : ∀ e ∈ evs, (∃ b, e = Ev.wrote b) ∨ (∃ b, e = Ev.writeFailed b))
    (e : Ev) (h1 : ∀ b, e ≠ Ev.wrote b) (h2 : ∀ b, e ≠ Ev.writeFailed b) :
    e ∉ evs := by
  intro hmem
  rcases hs e hmem with ⟨c, hc⟩ | ⟨c, hc⟩
  · exact h1 c hc
  · exact h2 c hc

lemma wf_false_of_wrotes (evs : List Ev)
    (hs : ∀ e ∈ evs, ∃ b, e = Ev.wrote b) : ∀ e ∈ evs, isWF e = false := by
  intro e he
  obtain ⟨c, rfl⟩ := hs e he
  rfl

lemma rf_false_of_shape (evs : List Ev)
    (hs : ∀ e ∈ evs, (∃ b, e = Ev.wrote b) ∨ (∃ b, e = Ev.writeFailed b)) :
    ∀ e ∈ evs, isRF e = false := by
  intro e he
  rcases hs e he with ⟨c, rfl⟩ | ⟨c, rfl⟩ <;> rfl

/-- Disjunction over the six exit branches of `afterConnect`, with the
result of each branch. -/
lemma afterConnect_cases (w : World) :
    ∀ r1 : SendRes, r1 = sendStrs (decimalB w.args.length :: w.args) w.sendOk →
    ∀ r2 : SendRes, r2 = sendStrs
        (decimalB (w.envp.filter (fun e => isValidEnvVar e)).length ::
          w.envp.filter (fun e => isValidEnvVar e)) r1.oks →
    ∀ r3 : StdinRes, r3 = stdinLoop w.stdinRs r2.oks 0 →
      (afterConnect w = (1, r1.evs) ∧ r1.ok = false)
      ∨ (afterConnect w = (1, r1.evs ++ r2.evs) ∧ r1.ok = true ∧ r2.ok = false)
      ∨ (afterConnect w = (1, r1.evs ++ r2.evs ++ r3.evs) ∧ r1.ok = true ∧ r2.ok = true
          ∧ r3.fatal = true)
      ∨ (∃ code : Nat, ∃ tail : List Ev,
          afterConnect w = (code, r1.evs ++ r2.evs ++ r3.evs ++ tail)
          ∧ r1.ok = true ∧ r2.ok = true ∧ r3.fatal = false
          ∧ ((tail = [Ev.wroteTerm (takeOk r3.oks).1, Ev.recvFailed]
                ∧ code = 1)
             ∨ (∃ b1, tail = [Ev.wroteTerm (takeOk r3.oks).1, Ev.gotStdout b1,
                  Ev.outStdout (cstr b1), Ev.recvFailed] ∧ code = 1)
             ∨ (∃ b1 b2, tail = [Ev.wroteTerm (takeOk r3.oks).1, Ev.gotStdout b1,
                  Ev.outStdout (cstr b1), Ev.gotStderr b2, Ev.outStderr (cstr b2)]
                  ∧ code = 0))) := by
  intro r1 hr1 r2 hr2 r3 hr3
  generalize hac : afterConnect w = ac
  simp only [afterConnect] at hac
  rw [← hr1, ← hr2, ← hr3] at hac
  by_cases h1 : r1.ok = false
  · simp only [if_pos h1] at hac
    exact Or.inl ⟨hac.symm, h1⟩
  · have h1t : r1.ok = true := by simpa using h1
    simp only [if_neg h1] at hac
    by_cases h2 : r2.ok = false
    · simp only [if_pos h2] at hac
      exact Or.inr (Or.inl ⟨hac.symm, h1t, h2⟩)
    · have h2t : r2.ok = true := by simpa using h2
      simp only [if_neg h2] at hac
      by_cases h3 : r3.fatal = true
      · simp only [if_pos h3] at hac
        exact Or.inr (Or.inr (Or.inl ⟨hac.symm, h1t, h2t, h3⟩))
      · have h3f : r3.fatal = false := by simpa using h3
        simp only [h3f, Bool.false_eq_true, if_false] at hac
        rcases hd1 : (readDelimitedString w.sockIn BUFFER_LENGTH).1 with _ | b1
        · simp only [hd1] at hac
          subst hac
          exact Or.inr (Or.inr (Or.inr ⟨1, _, rfl, h1t, h2t, h3f, Or.inl ⟨rfl, rfl⟩⟩))
        · simp only [hd1] at hac
          rcases hd2 : (readDelimitedString
              (readDelimitedString w.sockIn BUFFER_LENGTH).2 BUFFER_LENGTH).1 with _ | b2
          · simp only [hd2] at hac
            subst hac
            exact Or.inr (Or.inr (Or.inr ⟨1, _, rfl, h1t, h2t, h3f,
              Or.inr (Or.inl ⟨b1, rfl, rfl⟩)⟩))
          · simp only [hd2] at hac
            subst hac
            exact Or.inr (Or.inr (Or.inr ⟨0, _, rfl, h1t, h2t, h3f,
              Or.inr (Or.inr ⟨b1, b2, rfl, rfl⟩)⟩))

/-- A failed checked write is the last event `afterConnect` produces. -/
lemma afterConnect_evLast_wf (w : World) : evLast isWF (afterConnect w).2 := by
  rcases afterConnect_cases w _ rfl _ rfl _ rfl with
    ⟨hE, h1⟩ | ⟨hE, h1, h2⟩ | ⟨hE, h1, h2, h3⟩ | ⟨code, tail, hE, h1, h2, h3, htail⟩
  · rw [hE]
    exact sendStrs_evLast _ _
  · rw [hE]
    exact evLast_append _ _ _
      (wf_false_of_wrotes _ (sendStrs_ok_wrotes _ _ h1)) (sendStrs_evLast _ _)
  · rw [hE]
    refine evLast_append _ _ _ ?_ (stdinLoop_evLast _ _ _)
    intro e he
    rcases List.mem_append.mp he with he | he
    · exact wf_false_of_wrotes _ (sendStrs_ok_wrotes _ _ h1) e he
    · exact wf_false_of_wrotes _ (sendStrs_ok_wrotes _ _ h2) e he
  · rw [hE]
    have hpre : ∀ e ∈ (sendStrs (decimalB w.args.length :: w.args) w.sendOk).evs ++
        (sendStrs (decimalB (w.envp.filter (fun e => isValidEnvVar e)).length ::
          w.envp.filter (fun e => isValidEnvVar e))
          (sendStrs (decimalB w.args.length :: w.args) w.sendOk).oks).evs ++
        (stdinLoop w.stdinRs (sendStrs
          (decimalB (w.envp.filter (fun e => isValidEnvVar e)).length ::
            w.envp.filter (fun e => isValidEnvVar e))
          (sendStrs (decimalB w.args.length :: w.args) w.sendOk).oks).oks 0).evs,
        isWF e = false := by
      intro e he
      rcases List.mem_append.mp he with he | he
      · rcases List.mem_append.mp he with he | he
        · exact wf_false_of_wrotes _ (sendStrs_ok_wrotes _ _ h1) e he
        · exact wf_false_of_wrotes _ (sendStrs_ok_wrotes _ _ h2) e he
      · exact wf_false_of_wrotes _ (stdinLoop_ok_wrotes _ _ _ h3) e he
    refine evLast_append _ _ _ hpre ?_
    refine evLast_of_none _ _ ?_
    rcases htail with ⟨rfl, -⟩ | ⟨b1, rfl, -⟩ | ⟨b1, b2, rfl, -⟩ <;>
      · intro e he
        simp only [List.mem_cons, List.not_mem_nil, or_false] at he
        rcases he with rfl | he <;> first
          | rfl
          | (rcases he with rfl | he <;> first
              | rfl
              | (rcases he with rfl | he <;> first
                  | rfl
                  | (rcases he with rfl | rfl <;> rfl)))

/-- Events before the receive phase are all writes (possibly failed). -/
lemma afterConnect_pre_shape (w : World) :
    ∀ e ∈ (sendStrs (decimalB w.args.length :: w.args) w.sendOk).evs ++
        (sendStrs (decimalB (w.envp.filter (fun e => isValidEnvVar e)).length ::
          w.envp.filter (fun e => isValidEnvVar e))
          (sendStrs (decimalB w.args.length :: w.args) w.sendOk).oks).evs ++
        (stdinLoop w.stdinRs (sendStrs
          (decimalB (w.envp.filter (fun e => isValidEnvVar e)).length ::
            w.envp.filter (fun e => isValidEnvVar e))
          (sendStrs (decimalB w.args.length :: w.args) w.sendOk).oks).oks 0).evs,
      (∃ b, e = Ev.wrote b) ∨ (∃ b, e = Ev.writeFailed b) := by
  intro e he
  rcases List.mem_append.mp he with he | he
  · rcases List.mem_append.mp he with he | he
    · exact sendStrs_shape _ _ e he
    · exact sendStrs_shape _ _ e he
  · exact stdinLoop_shape _ _ _ e he

/-- A failed frame read is the last event `afterConnect` produces. -/
lemma afterConnect_evLast_rf (w : World) : evLast isRF (afterConnect w).2 := by
  rcases afterConnect_cases w _ rfl _ rfl _ rfl with
    ⟨hE, h1⟩ | ⟨hE, h1, h2⟩ | ⟨hE, h1, h2, h3⟩ | ⟨code, tail, hE, h1, h2, h3, htail⟩
  · rw [hE]
    exact evLast_of_none _ _ (rf_false_of_shape _ (sendStrs_shape _ _))
  · rw [hE]
    refine evLast_of_none _ _ ?_
    intro e he
    rcases List.mem_append.mp he with he | he
    · exact rf_false_of_shape _ (sendStrs_shape _ _) e he
    · exact rf_false_of_shape _ (sendStrs_shape _ _) e he
  · rw [hE]
    refine evLast_of_none _ _ ?_
    intro e he
    rcases List.mem_append.mp he with he | he
    · rcases List.mem_append.mp he with he | he
      · exact rf_false_of_shape _ (sendStrs_shape _ _) e he
      · exact rf_false_of_shape _ (sendStrs_shape _ _) e he
    · exact rf_false_of_shape _ (stdinLoop_shape _ _ _) e he
  · rw [hE]
    refine evLast_append _ _ _
      (fun e he => by rcases afterConnect_pre_shape w e he with ⟨c, rfl⟩ | ⟨c, rfl⟩ <;> rfl) ?_
    rcases htail with ⟨rfl, -⟩ | ⟨b1, rfl, -⟩ | ⟨b1, b2, rfl, -⟩
    · exact evLast_append _ [Ev.wroteTerm _] [Ev.recvFailed]
        (by intro e he; simp only [List.mem_singleton] at he; subst he; rfl)
        (evLast_singleton _ _)
    · exact evLast_append _ [Ev.wroteTerm _, Ev.gotStdout b1, Ev.outStdout (cstr b1)]
        [Ev.recvFailed]
        (by intro e he; fin_cases he <;> rfl)
        (evLast_singleton _ _)
    · refine evLast_of_none _ _ ?_
      intro e he
      fin_cases he <;> rfl

/-- A failed checked write forces the result 1. -/
lemma afterConnect_wf_code1 (w : World) (b : Bytes)
    (h : Ev.writeFailed b ∈ (afterConnect w).2) : (afterConnect w).1 = 1 := by
  rcases afterConnect_cases w _ rfl _ rfl _ rfl with
    ⟨hE, h1⟩ | ⟨hE, h1, h2⟩ | ⟨hE, h1, h2, h3⟩ | ⟨code, tail, hE, h1, h2, h3, htail⟩
  · rw [hE]
  · rw [hE]
  · rw [hE]
  · have hT : (afterConnect w).2 = (sendStrs (decimalB w.args.length :: w.args) w.sendOk).evs ++
        (sendStrs (decimalB (w.envp.filter (fun e => isValidEnvVar e)).length ::
          w.envp.filter (fun e => isValidEnvVar e))
          (sendStrs (decimalB w.args.length :: w.args) w.sendOk).oks).evs ++
        (stdinLoop w.stdinRs (sendStrs
          (decimalB (w.envp.filter (fun e => isValidEnvVar e)).length ::
            w.envp.filter (fun e => isValidEnvVar e))
          (sendStrs (decimalB w.args.length :: w.args) w.sendOk).oks).oks 0).evs ++ tail := by
      rw [hE]
    have hC : (afterConnect w).1 = code := by rw [hE]
    rcases htail with ⟨htl, hcode⟩ | ⟨b1, htl, hcode⟩ | ⟨b1, b2, htl, hcode⟩
    · rw [hC]; exact hcode
    · rw [hC]; exact hcode
    · exfalso
      rw [hT] at h
      subst htl
      have hpre : ∀ e ∈ (sendStrs (decimalB w.args.length :: w.args) w.sendOk).evs ++
          (sendStrs (decimalB (w.envp.filter (fun e => isValidEnvVar e)).length ::
            w.envp.filter (fun e => isValidEnvVar e))
            (sendStrs (decimalB w.args.length :: w.args) w.sendOk).oks).evs ++
          (stdinLoop w.stdinRs (sendStrs
            (decimalB (w.envp.filter (fun e => isValidEnvVar e)).length ::
              w.envp.filter (fun e => isValidEnvVar e))
            (sendStrs (decimalB w.args.length :: w.args) w.sendOk).oks).oks 0).evs,
          ∃ c, e = Ev.wrote c := by
        intro e he
        rcases List.mem_append.mp he with he | he
        · rcases List.mem_append.mp he with he | he
          · exact sendStrs_ok_wrotes _ _ h1 e he
          · exact sendStrs_ok_wrotes _ _ h2 e he
        · exact stdinLoop_ok_wrotes _ _ _ h3 e he
      rcases List.mem_append.mp h with h | h
      · obtain ⟨c, hc⟩ := hpre _ h
        exact absurd hc (by simp)
      · simp at h

/-- Each decoded stdout frame is followed by printing its C-string
content on the local stdout. -/
lemma afterConnect_out_mem (w : World) (b : Bytes) :
    (Ev.gotStdout b ∈ (afterConnect w).2 → Ev.outStdout (cstr b) ∈ (afterConnect w).2)
    ∧ (Ev.gotStderr b ∈ (afterConnect w).2 → Ev.outStderr (cstr b) ∈ (afterConnect w).2) := by
  rcases afterConnect_cases w _ rfl _ rfl _ rfl with
    ⟨hE, h1⟩ | ⟨hE, h1, h2⟩ | ⟨hE, h1, h2, h3⟩ | ⟨code, tail, hE, h1, h2, h3, htail⟩
  · constructor <;> intro h <;> rw [hE] at h ⊢ <;>
      exact absurd h (shape_not_mem _ (sendStrs_shape _ _) _ (by simp) (by simp))
  · constructor <;> intro h <;> rw [hE] at h ⊢ <;>
      · exfalso
        rcases List.mem_append.mp h with h | h <;>
          exact absurd h (shape_not_mem _ (sendStrs_shape _ _) _ (by simp) (by simp))
  · constructor <;> intro h <;> rw [hE] at h ⊢ <;>
      · exfalso
        rcases List.mem_append.mp h with h | h
        · rcases List.mem_append.mp h with h | h <;>
            exact absurd h (shape_not_mem _ (sendStrs_shape _ _) _ (by simp) (by simp))
        · exact absurd h (shape_not_mem _ (stdinLoop_shape _ _ _) _ (by simp) (by simp))
  · have hT : (afterConnect w).2 = (sendStrs (decimalB w.args.length :: w.args) w.sendOk).evs ++
        (sendStrs (decimalB (w.envp.filter (fun e => isValidEnvVar e)).length ::
          w.envp.filter (fun e => isValidEnvVar e))
          (sendStrs (decimalB w.args.length :: w.args) w.sendOk).oks).evs ++
        (stdinLoop w.stdinRs (sendStrs
          (decimalB (w.envp.filter (fun e => isValidEnvVar e)).length ::
            w.envp.filter (fun e => isValidEnvVar e))
          (sendStrs (decimalB w.args.length :: w.args) w.sendOk).oks).oks 0).evs ++ tail := by
      rw [hE]
    constructor <;> intro h <;> rw [hT] at h ⊢ <;>
      refine List.mem_append_right _ ?_ <;>
      rcases List.mem_append.mp h with h | h
    · exact absurd h (shape_not_mem _ (afterConnect_pre_shape w) _ (by simp) (by simp))
    · rcases htail with ⟨rfl, -⟩ | ⟨b1, rfl, -⟩ | ⟨b1, b2, rfl, -⟩ <;> simp_all
    · exact absurd h (shape_not_mem _ (afterConnect_pre_shape w) _ (by simp) (by simp))
    · rcases htail with ⟨rfl, -⟩ | ⟨b1, rfl, -⟩ | ⟨b1, b2, rfl, -⟩ <;> simp_all

/-- A fully successful pipeline run, for any outcome of the stdin relay
that is not fatal and consumed no write outcomes. -/
lemma afterConnect_coop (w : World) (sevs : List Ev) (b1 b2 : Bytes)
    (hsend : w.sendOk = [])
    (hstdin : stdinLoop w.stdinRs [] 0 = ⟨sevs, [], false⟩)
    (hsock : w.sockIn = frameStream b1 ++ frameStream b2)
    (h1 : b1.length ≤ BUFFER_LENGTH) (h2 : b2.length ≤ BUFFER_LENGTH) :
    afterConnect w = (0,
      wroteEvs (decimalB w.args.length :: w.args) ++
      wroteEvs (decimalB (w.envp.filter (fun e => isValidEnvVar e)).length ::
        w.envp.filter (fun e => isValidEnvVar e)) ++
      sevs ++
      [Ev.wroteTerm true, Ev.gotStdout b1, Ev.outStdout (cstr b1),
       Ev.gotStderr b2, Ev.outStderr (cstr b2)]) := by
  have hb : BUFFER_LENGTH < 65536 := by norm_num [BUFFER_LENGTH]
  have hd1 : readDelimitedString w.sockIn BUFFER_LENGTH = (some b1, frameStream b2) := by
    rw [hsock]
    exact decode_frameStream b1 (frameStream b2) _ h1 hb
  have hd2 : readDelimitedString (frameStream b2) BUFFER_LENGTH = (some b2, []) := by
    have := decode_frameStream b2 [] _ h2 hb
    simpa using this
  simp only [afterConnect, hsend, sendStrs_nil_oks, hstdin, hd1, hd2, takeOk]
  simp

/-- A pipeline run whose stdin relay is fatal, with all earlier sends
succeeding. -/
lemma afterConnect_stdinFatal (w : World) (sevs : List Ev) (oks : List Bool)
    (hsend : w.sendOk = [])
    (hstdin : stdinLoop w.stdinRs [] 0 = ⟨sevs, oks, true⟩) :
    afterConnect w = (1,
      wroteEvs (decimalB w.args.length :: w.args) ++
      wroteEvs (decimalB (w.envp.filter (fun e => isValidEnvVar e)).length ::
        w.envp.filter (fun e => isValidEnvVar e)) ++
      sevs) := by
  simp only [afterConnect, hsend, sendStrs_nil_oks, hstdin]
  simp

/-! ## Lemmas on the client and on main -/

/-- With the port present and socket calls succeeding, the client is
the connect events followed by the pipeline. -/
lemma client_eq_afterConnect (w : World) (ps : Bytes)
    (hp : getenvM w.envp desktopPortName = some ps)
    (ho : w.openOk = true) (hc : w.connectOk = true) :
    runTrampolineClient w =
      ((afterConnect w).1, true,
        Ev.opened :: Ev.connected (toPort ps) :: (afterConnect w).2) := by
  simp [runTrampolineClient, hp, ho, hc]

/-- If no socket was opened, the client produced no events. -/
lemma client_unopened (w : World) (h : (runTrampolineClient w).2.1 = false) :
    (runTrampolineClient w).2.2 = [] := by
  rcases hg : getenvM w.envp desktopPortName with _ | ps
  · simp [runTrampolineClient, hg]
  · by_cases ho : w.openOk = false
    · simp [runTrampolineClient, hg, ho]
    · by_cases hco : w.connectOk = false
      · simp [runTrampolineClient, hg, ho, hco] at h
      · simp [runTrampolineClient, hg, ho, hco] at h

/-- Disjunction over the three exit shapes of the client. -/
lemma client_cases (w : World) :
    ((runTrampolineClient w).2.2 = [] ∧ (runTrampolineClient w).1 = 1)
    ∨ (∃ p, (runTrampolineClient w).2.2 = [Ev.opened, Ev.connectFailed p]
        ∧ (runTrampolineClient w).1 = 1)
    ∨ (∃ p, (runTrampolineClient w).2.2 =
          Ev.opened :: Ev.connected p :: (afterConnect w).2
        ∧ (runTrampolineClient w).1 = (afterConnect w).1) := by
  rcases hg : getenvM w.envp desktopPortName with _ | ps
  · exact Or.inl (by simp [runTrampolineClient, hg])
  · by_cases ho : w.openOk = false
    · exact Or.inl (by simp [runTrampolineClient, hg, ho])
    · by_cases hco : w.connectOk = false
      · refine Or.inr (Or.inl ⟨toPort ps, ?_⟩)
        simp [runTrampolineClient, hg, ho, hco]
      · refine Or.inr (Or.inr ⟨toPort ps, ?_⟩)
        simp [runTrampolineClient, hg, ho, hco]

lemma client_evLast_wf (w : World) : evLast isWF (runTrampolineClient w).2.2 := by
  rcases client_cases w with ⟨hT, -⟩ | ⟨p, hT, -⟩ | ⟨p, hT, -⟩
  · rw [hT]; exact evLast_nil _
  · rw [hT]
    refine evLast_of_none _ _ ?_
    intro e he
    simp only [List.mem_cons, List.mem_singleton, List.not_mem_nil, or_false] at he
    rcases he with rfl | rfl <;> rfl
  · rw [hT]
    exact evLast_append _ [Ev.opened, Ev.connected p] _
      (by
        intro e he
        simp only [List.mem_cons, List.mem_singleton, List.not_mem_nil, or_false] at he
        rcases he with rfl | rfl <;> rfl)
      (afterConnect_evLast_wf w)

lemma client_evLast_rf (w : World) : evLast isRF (runTrampolineClient w).2.2 := by
  rcases client_cases w with ⟨hT, -⟩ | ⟨p, hT, -⟩ | ⟨p, hT, -⟩
  · rw [hT]; exact evLast_nil _
  · rw [hT]
    refine evLast_of_none _ _ ?_
    intro e he
    simp only [List.mem_cons, List.mem_singleton, List.not_mem_nil, or_false] at he
    rcases he with rfl | rfl <;> rfl
  · rw [hT]
    exact evLast_append _ [Ev.opened, Ev.connected p] _
      (by
        intro e he
        simp only [List.mem_cons, List.mem_singleton, List.not_mem_nil, or_false] at he
        rcases he with rfl | rfl <;> rfl)
      (afterConnect_evLast_rf w)

lemma client_wf_code1 (w : World) (b : Bytes)
    (h : Ev.writeFailed b ∈ (runTrampolineClient w).2.2) :
    (runTrampolineClient w).1 = 1 := by
  rcases client_cases w with ⟨hT, hc⟩ | ⟨p, hT, hc⟩ | ⟨p, hT, hc⟩
  · exact hc
  · exact hc
  · rw [hc]
    rw [hT] at h
    simp only [List.mem_cons] at h
    rcases h with h | h
    · exact absurd h (by simp)
    rcases h with h | h
    · exact absurd h (by simp)
    exact afterConnect_wf_code1 w b h

lemma client_out_mem (w : World) (b : Bytes) :
    (Ev.gotStdout b ∈ (runTrampolineClient w).2.2 →
      Ev.outStdout (cstr b) ∈ (runTrampolineClient w).2.2)
    ∧ (Ev.gotStderr b ∈ (runTrampolineClient w).2.2 →
      Ev.outStderr (cstr b) ∈ (runTrampolineClient w).2.2) := by
  rcases client_cases w with ⟨hT, -⟩ | ⟨p, hT, -⟩ | ⟨p, hT, -⟩
  · rw [hT]; simp
  · rw [hT]
    constructor <;> intro h <;> simp at h
  · rw [hT]
    constructor <;> intro h <;>
      simp only [List.mem_cons] at h ⊢ <;>
      refine Or.inr (Or.inr ?_)
    · rcases h with h | h
      · exact absurd h (by simp)
      rcases h with h | h
      · exact absurd h (by simp)
      exact (afterConnect_out_mem w b).1 h
    · rcases h with h | h
      · exact absurd h (by simp)
      rcases h with h | h
      · exact absurd h (by simp)
      exact (afterConnect_out_mem w b).2 h

/-- Store indices of the collection loop are bounded by the starting
counter plus the number of accepted entries. -/
lemma envStoresGo_lt (envp : List Bytes) : ∀ envc, ∀ p ∈ envStoresGo envp envc,
    p.1 < envc + (envp.filter (fun e => isValidEnvVar e)).length := by
  induction envp with
  | nil =>
    intro envc p hp
    simp [envStoresGo] at hp
  | cons e rest ih =>
    intro envc p hp
    rw [envStoresGo] at hp
    by_cases hv : isValidEnvVar e = true
    · rw [if_pos hv] at hp
      rw [List.filter_cons_of_pos hv, List.length_cons]
      have heq : List.filter isValidEnvVar rest =
          List.filter (fun e => isValidEnvVar e) rest := rfl
      rcases List.mem_cons.mp hp with rfl | hp
      · simp
      · have := ih (envc + 1) p hp
        rw [heq]
        omega
    · rw [if_neg hv] at hp
      rw [List.filter_cons_of_neg (by simpa using hv)]
      exact ih envc p hp

/-! ## Claim theorems -/

/-- Claim C2: for every string of the form NAME=value, `isValidEnvVar`
returns true iff NAME is exactly one of the four allow-listed names; in
particular an allow-listed name extended with extra characters before
the equals byte is rejected. -/
theorem env_filter_allowlist_iff :
    (∀ name value : Bytes, 61 ∉ name →
      (isValidEnvVar (name ++ 61 :: value) = true ↔ name ∈ sValidEnvVarsM))
    ∧ (∀ x extra value : Bytes, x ∈ sValidEnvVarsM → extra ≠ [] → 61 ∉ extra →
      isValidEnvVar ((x ++ extra) ++ 61 :: value) = false) :=
  ⟨isValidEnvVar_iff, isValidEnvVar_ext_false⟩

/-- Witness for C2 at DESKTOP_USERNAME. -/
theorem env_filter_allowlist_iff_witness :
    isValidEnvVar (strB "DESKTOP_USERNAME" ++ 61 :: strB "alice") = true
    ∧ isValidEnvVar ((strB "DESKTOP_USERNAME" ++ strB "X") ++ 61 :: strB "v") = false :=
  ⟨(env_filter_allowlist_iff.1 (strB "DESKTOP_USERNAME") (strB "alice")
      (by decide)).mpr (by decide),
   env_filter_allowlist_iff.2 (strB "DESKTOP_USERNAME") (strB "X") (strB "v")
      (by decide) (by decide) (by decide)⟩

/-- Claim C4: a declared frame length larger than the destination
buffer capacity makes `readDelimitedString` return -1 and consume no
payload bytes: the read oracle after the call is exactly what followed
the two length bytes. -/
theorem oversized_frame_rejected_without_reads (l0 l1 : Nat) (rest : List SockRead)
    (bufferSize : Nat) (h : bufferSize < l0 + 256 * l1) :
    readDelimitedString (SockRead.chunk [l0, l1] :: rest) bufferSize = (none, rest)
    ∧ reportedLen (readDelimitedString (SockRead.chunk [l0, l1] :: rest) bufferSize).1
        = -1 := by
  have hE : readDelimitedString (SockRead.chunk [l0, l1] :: rest) bufferSize
      = (none, rest) := by
    simp only [readDelimitedString, readSocketM]
    norm_num
    intro hle
    exact absurd hle (by omega)
  exact ⟨hE, by rw [hE]; rfl⟩

/-- Witness for C4: declared length 4097 against the 4096-byte buffer. -/
theorem oversized_frame_rejected_without_reads_witness :
    readDelimitedString (SockRead.chunk [1, 16] :: [SockRead.chunk [7]]) 4096
        = (none, [SockRead.chunk [7]])
    ∧ reportedLen (readDelimitedString (SockRead.chunk [1, 16]
        :: [SockRead.chunk [7]]) 4096).1 = -1 :=
  oversized_frame_rejected_without_reads 1 16 [SockRead.chunk [7]] 4096 (by norm_num)

/-- Claim C8: encoding a payload of length at most the buffer capacity
and decoding it with `readDelimitedString` returns exactly the original
bytes, with the reported length equal to the payload length. -/
theorem frame_encode_decode_roundtrip (p : Bytes) (bufferSize : Nat)
    (h1 : p.length ≤ bufferSize) (h2 : bufferSize < 65536) :
    readDelimitedString (frameStream p) bufferSize = (some p, [])
    ∧ reportedLen (readDelimitedString (frameStream p) bufferSize).1
        = (p.length : Int) := by
  have hE : readDelimitedString (frameStream p) bufferSize = (some p, []) := by
    have := decode_frameStream p [] bufferSize h1 h2
    simpa using this
  exact ⟨hE, by rw [hE]; rfl⟩

/-- Witness for C8 on a concrete payload. -/
theorem frame_encode_decode_roundtrip_witness :
    readDelimitedString (frameStream (strB "clean")) 4096 = (some (strB "clean"), [])
    ∧ reportedLen (readDelimitedString (frameStream (strB "clean")) 4096).1
        = ((strB "clean").length : Int) :=
  frame_encode_decode_roundtrip (strB "clean") 4096 (by decide) (by norm_num)

/-- Claim C10: the collection array `validEnvVars` has capacity 4, and
all stores are in bounds exactly under the precondition that at most 4
environment entries pass the filter; an environment with five matching
entries (duplicates are not removed) produces the out-of-bounds store
index 4. -/
theorem env_array_store_bounds :
    (∀ envp : List Bytes,
      (envp.filter (fun e => isValidEnvVar e)).length ≤ NUMBER_OF_VALID_ENV_VARS →
      ∀ p ∈ envStores envp, p.1 < NUMBER_OF_VALID_ENV_VARS)
    ∧ ((4, strB "DESKTOP_USERNAME=a") ∈
        envStores (List.replicate 5 (strB "DESKTOP_USERNAME=a"))
      ∧ ¬ (4 < NUMBER_OF_VALID_ENV_VARS)) := by
  refine ⟨?_, by decide, by decide⟩
  intro envp hlen p hp
  have := envStoresGo_lt envp 0 p hp
  omega

/-- Witness for C10 on a one-entry environment. -/
theorem env_array_store_bounds_witness : (0 : Nat) < NUMBER_OF_VALID_ENV_VARS :=
  env_array_store_bounds.1 [strB "DESKTOP_USERNAME=a"] (by decide)
    (0, strB "DESKTOP_USERNAME=a") (by decide)

/-- Claim C3 (amended): a missing DESKTOP_PORT value is fatal at
startup, with exit code 1, before any socket is opened and before any
event at all.  An unparseable value is not detected: see the
counterexample. -/
theorem missing_port_fatal_before_socket (w : World)
    (h : getenvM w.envp desktopPortName = none) :
    runTrampolineClient w = (1, false, []) ∧ runMain w = (1, []) := by
  have hc : runTrampolineClient w = (1, false, []) := by
    simp [runTrampolineClient, h]
  refine ⟨hc, ?_⟩
  by_cases hn : w.netOk = false
  · simp [runMain, hn]
  · simp [runMain, hn, hc]

/-- Witness for C3 on an environment without DESKTOP_PORT. -/
theorem missing_port_fatal_before_socket_witness :
    runTrampolineClient ⟨[strB "a"], [strB "PATH=x"], true, true, true, [], [], []⟩
        = (1, false, [])
    ∧ runMain ⟨[strB "a"], [strB "PATH=x"], true, true, true, [], [], []⟩ = (1, []) :=
  missing_port_fatal_before_socket _ (by decide)

/-- Oracle with DESKTOP_PORT set to a non-numeric value, network fine,
socket creation succeeding, the connect attempt failing. -/
def wBadPort : World := ⟨[], [strB "DESKTOP_PORT=abc"], true, true, false, [], [], []⟩

/-- Counterexample to C3 as stated: with the unparseable value abc,
`atoi` silently yields 0, the socket IS opened (the Ev.opened event,
and the flag true), and the client goes on to attempt a connection to
port 0; the claimed before-any-socket fatal exit does not happen for
unparseable values. -/
theorem unparseable_port_opens_socket :
    runTrampolineClient wBadPort = (1, true, [Ev.opened, Ev.connectFailed 0]) := by
  decide

/-- Claim C7: whenever the trace of a whole invocation contains the
socket-opened event, it also contains the socket-closed event — the
socket is closed on every exit path once opened. -/
theorem socket_closed_whenever_opened (w : World)
    (h : Ev.opened ∈ (runMain w).2) : Ev.closed ∈ (runMain w).2 := by
  by_cases hn : w.netOk = false
  · simp [runMain, hn] at h
  · have hT : (runMain w).2 = (runTrampolineClient w).2.2 ++
        (if (runTrampolineClient w).2.1 then [Ev.closed] else []) := by
      simp [runMain, hn]
    rw [hT] at h ⊢
    cases hb : (runTrampolineClient w).2.1 with
    | false =>
      rw [client_unopened w hb] at h
      simp [hb] at h
    | true => simp [hb]

/-- Witness for C7 on a connect-failure path: the socket is opened,
the connect fails, and the close still happens. -/
theorem socket_closed_whenever_opened_witness :
    Ev.closed ∈ (runMain ⟨[], [strB "DESKTOP_PORT=9"], true, true, false, [], [], []⟩).2 :=
  socket_closed_whenever_opened _ (by decide)

/-- Claim C9 (amended): a decoded response frame is printed on the
local stream with C string formatting — the bytes before the first 0
byte of the payload; in particular the payload is written in full
exactly when it contains no 0 byte. -/
theorem response_payload_written_as_cstring (w : World) (b : Bytes) :
    (Ev.gotStdout b ∈ (runTrampolineClient w).2.2 →
      Ev.outStdout (cstr b) ∈ (runTrampolineClient w).2.2)
    ∧ (Ev.gotStderr b ∈ (runTrampolineClient w).2.2 →
      Ev.outStderr (cstr b) ∈ (runTrampolineClient w).2.2)
    ∧ (0 ∉ b → cstr b = b) := by
  refine ⟨(client_out_mem w b).1, (client_out_mem w b).2, ?_⟩
  intro h0
  induction b with
  | nil => rfl
  | cons x xs ih =>
    have hx : (x != 0) = true := by
      simp only [bne_iff_ne, ne_eq]
      intro hcon
      exact h0 (by simp [hcon])
    rw [cstr, List.takeWhile_cons, hx]
    simp only [if_true]
    have hxs := ih (fun hmem => h0 (List.mem_cons_of_mem x hmem))
    rw [cstr] at hxs
    rw [hxs]

/-- Oracle for a session whose stdout response frame contains an
interior 0 byte. -/
def wNulResp : World :=
  ⟨[], [strB "DESKTOP_PORT=1"], true, true, true, [], [none],
   frameStream [65, 0, 66] ++ frameStream []⟩

/-- Counterexample to C9 as stated: the stdout frame payload is the
three bytes 65 0 66, but the bytes written to the local stdout are
just 65 — `fprintf(stdout, "%s", buffer)` stops at the first 0 byte,
so the payload is not written verbatim and in full. -/
theorem response_nul_truncated :
    runTrampolineClient wNulResp = (0, true,
      [Ev.opened, Ev.connected 1, Ev.wrote [48, 0], Ev.wrote [48, 0],
       Ev.wroteTerm true, Ev.gotStdout [65, 0, 66], Ev.outStdout [65],
       Ev.gotStderr [], Ev.outStderr []])
    ∧ Ev.outStdout [65, 0, 66] ∉ (runTrampolineClient wNulResp).2.2 := by
  exact ⟨by decide, by decide⟩

/-- Oracle for a session with a 0-free stdout response. -/
def wRespWit : World :=
  ⟨[], [strB "DESKTOP_PORT=2"], true, true, true, [], [none],
   frameStream (strB "ok") ++ frameStream []⟩

/-- Witness for C9: the decoded ok payload is printed, and a 0-free
payload is printed unchanged. -/
theorem response_payload_written_as_cstring_witness :
    Ev.outStdout (cstr (strB "ok")) ∈ (runTrampolineClient wRespWit).2.2
    ∧ cstr (strB "hi") = strB "hi" :=
  ⟨(response_payload_written_as_cstring wRespWit (strB "ok")).1 (by decide),
   (response_payload_written_as_cstring wRespWit (strB "hi")).2.2 (by decide)⟩

/-- Claim C5 (amended): every failed checked send — the argument
count, the arguments, the environment count and entries, and the stdin
chunk writes — is fatal: the client result and the process exit code
are 1, and no event follows the failed write.  The final 0x00
terminator write is not checked; see the counterexample. -/
theorem send_failure_fatal_exit1 (w : World) (b : Bytes)
    (h : Ev.writeFailed b ∈ (runTrampolineClient w).2.2) :
    (runTrampolineClient w).1 = 1 ∧ (runMain w).1 = 1
    ∧ ∀ pre post, (runTrampolineClient w).2.2 = pre ++ Ev.writeFailed b :: post →
        post = [] := by
  have hc := client_wf_code1 w b h
  refine ⟨hc, ?_, ?_⟩
  · by_cases hn : w.netOk = false
    · simp [runMain, hn]
    · simp [runMain, hn, hc]
  · intro pre post heq
    exact client_evLast_wf w pre _ post heq rfl

/-- Oracle whose fourth write (the stdin terminator) fails while all
checked writes succeed. -/
def wTermFail : World :=
  ⟨[strB "x"], [strB "DESKTOP_PORT=3"], true, true, true, [true, true, true, false],
   [none], frameStream (strB "out") ++ frameStream (strB "er")⟩

/-- Counterexample to C5 as stated: the write of the single 0x00 stdin
terminator byte fails (Ev.wroteTerm false), yet the session continues
through both receive states and the process exits with code 0 — the
unchecked `writeSocket(socket, "\x00", 1)` result is discarded. -/
theorem send_terminator_failure_not_fatal :
    (runMain wTermFail).1 = 0
    ∧ Ev.wroteTerm false ∈ (runMain wTermFail).2
    ∧ Ev.gotStdout (strB "out") ∈ (runMain wTermFail).2 := by
  exact ⟨by decide, by decide, by decide⟩

/-- Oracle whose very first checked send fails. -/
def wSendFail : World :=
  ⟨[], [strB "DESKTOP_PORT=4"], true, true, true, [false], [], []⟩

/-- Witness for C5: the failed send of the argument count string. -/
theorem send_failure_fatal_exit1_witness :
    (runTrampolineClient wSendFail).1 = 1 ∧ (runMain wSendFail).1 = 1 := by
  have h := send_failure_fatal_exit1 wSendFail [48, 0] (by decide)
  exact ⟨h.1, h.2.1⟩

/-- Claim C6: the stdin relay treats a read error with nothing
forwarded yet as no stdin (no events, not fatal, the caller then sends
the terminator — second conjunct: the full session still succeeds with
Ev.wroteTerm on the trace and no stdin payload bytes); a read error
after at least one forwarded chunk is fatal: the client stops with
result 1 and the trace ends with the forwarded chunks — no Ev.wroteTerm
event, the terminator is never sent. -/
theorem stdin_relay_first_error_vs_late_error :
    (∀ rest oks, stdinLoop (none :: rest) oks 0 = ⟨[], oks, false⟩)
    ∧ (∀ args envp ps b1 b2, getenvM envp desktopPortName = some ps →
        b1.length ≤ BUFFER_LENGTH → b2.length ≤ BUFFER_LENGTH →
        runTrampolineClient ⟨args, envp, true, true, true, [], [none],
            frameStream b1 ++ frameStream b2⟩
          = (0, true, Ev.opened :: Ev.connected (toPort ps) ::
              (wroteEvs (decimalB args.length :: args) ++
               wroteEvs (decimalB (envp.filter (fun e => isValidEnvVar e)).length ::
                 envp.filter (fun e => isValidEnvVar e)) ++
               [Ev.wroteTerm true, Ev.gotStdout b1, Ev.outStdout (cstr b1),
                Ev.gotStderr b2, Ev.outStderr (cstr b2)])))
    ∧ (∀ args envp ps chunks rs sockIn, getenvM envp desktopPortName = some ps →
        chunks ≠ [] → (∀ c ∈ chunks, c ≠ []) →
        runTrampolineClient ⟨args, envp, true, true, true, [],
            chunks.map some ++ none :: rs, sockIn⟩
          = (1, true, Ev.opened :: Ev.connected (toPort ps) ::
              (wroteEvs (decimalB args.length :: args) ++
               wroteEvs (decimalB (envp.filter (fun e => isValidEnvVar e)).length ::
                 envp.filter (fun e => isValidEnvVar e)) ++
               chunks.map Ev.wrote))) := by
  refine ⟨fun rest oks => rfl, ?_, ?_⟩
  · intro args envp ps b1 b2 hp h1 h2
    have hstdin : stdinLoop ([none] : List (Option Bytes)) [] 0 = ⟨[], [], false⟩ := rfl
    have hcoop := afterConnect_coop
      ⟨args, envp, true, true, true, [], [none], frameStream b1 ++ frameStream b2⟩
      [] b1 b2 rfl hstdin rfl h1 h2
    rw [client_eq_afterConnect _ ps hp rfl rfl, hcoop]
    simp
  · intro args envp ps chunks rs sockIn hp hne hc
    have hstdin := stdinLoop_err_after chunks 0 rs hc (fun h => absurd h hne)
    have hfatal := afterConnect_stdinFatal
      ⟨args, envp, true, true, true, [], chunks.map some ++ none :: rs, sockIn⟩
      (chunks.map Ev.wrote) [] rfl hstdin
    rw [client_eq_afterConnect _ ps hp rfl rfl, hfatal]

/-- Witness for C6: a no-stdin session sending the terminator, and a
session with one forwarded chunk aborted by a read error before the
terminator. -/
theorem stdin_relay_first_error_vs_late_error_witness :
    runTrampolineClient ⟨[], [strB "DESKTOP_PORT=5"], true, true, true, [], [none],
        frameStream (strB "A") ++ frameStream []⟩
      = (0, true, [Ev.opened, Ev.connected 5, Ev.wrote [48, 0], Ev.wrote [48, 0],
          Ev.wroteTerm true, Ev.gotStdout (strB "A"), Ev.outStdout (strB "A"),
          Ev.gotStderr [], Ev.outStderr []])
    ∧ runTrampolineClient ⟨[], [strB "DESKTOP_PORT=5"], true, true, true, [],
        [some (strB "d"), none], []⟩
      = (1, true, [Ev.opened, Ev.connected 5, Ev.wrote [48, 0], Ev.wrote [48, 0],
          Ev.wrote (strB "d")]) := by
  constructor
  · exact (stdin_relay_first_error_vs_late_error.2.1 [] [strB "DESKTOP_PORT=5"]
      (strB "5") (strB "A") [] (by decide) (by decide) (by decide)).trans (by decide)
  · exact (stdin_relay_first_error_vs_late_error.2.2 [] [strB "DESKTOP_PORT=5"]
      (strB "5") [strB "d"] [] [] (by decide) (by decide) (by decide)).trans (by decide)

/-- Claim C1 (amended): for every invocation reaching a connected
socket, the protocol steps happen in the strict order argument count,
arguments in order, filtered-environment count, filtered entries in
enumeration order, stdin chunks, the 0x00 terminator, stdout frame then
its printing, stderr frame then its printing (first conjunct: the full
trace of a cooperative session, in which Ev.wrote [] is the zero-byte
write issued when the stdin read returns 0, carrying no wire bytes).
Failure of any checked send and failure of either receive short-circuit
all later steps (second and third conjuncts: such a failure is the last
event of the trace).  The claimed short-circuit does NOT hold for the
unchecked terminator write; see the counterexample. -/
theorem trampoline_pipeline_order_and_shortcircuit :
    (∀ (args envp : List Bytes) (ps : Bytes) (chunks : List Bytes) (b1 b2 : Bytes),
        getenvM envp desktopPortName = some ps →
        (∀ c ∈ chunks, c ≠ []) →
        b1.length ≤ BUFFER_LENGTH → b2.length ≤ BUFFER_LENGTH →
        runTrampolineClient ⟨args, envp, true, true, true, [], chunks.map some,
            frameStream b1 ++ frameStream b2⟩
          = (0, true, Ev.opened :: Ev.connected (toPort ps) ::
              (wroteEvs (decimalB args.length :: args) ++
               wroteEvs (decimalB (envp.filter (fun e => isValidEnvVar e)).length ::
                 envp.filter (fun e => isValidEnvVar e)) ++
               (chunks.map Ev.wrote ++ [Ev.wrote []]) ++
               [Ev.wroteTerm true, Ev.gotStdout b1, Ev.outStdout (cstr b1),
                Ev.gotStderr b2, Ev.outStderr (cstr b2)])))
    ∧ (∀ w : World, ∀ pre post : List Ev, ∀ b : Bytes,
        (runTrampolineClient w).2.2 = pre ++ Ev.writeFailed b :: post → post = [])
    ∧ (∀ w : World, ∀ pre post : List Ev,
        (runTrampolineClient w).2.2 = pre ++ Ev.recvFailed :: post → post = []) := by
  refine ⟨?_, ?_, ?_⟩
  · intro args envp ps chunks b1 b2 hp hc h1 h2
    have hstdin := stdinLoop_chunks chunks 0 hc
    have hcoop := afterConnect_coop
      ⟨args, envp, true, true, true, [], chunks.map some,
        frameStream b1 ++ frameStream b2⟩
      (chunks.map Ev.wrote ++ [Ev.wrote []]) b1 b2 rfl hstdin rfl h1 h2
    rw [client_eq_afterConnect _ ps hp rfl rfl, hcoop]
  · intro w pre post b heq
    exact client_evLast_wf w pre _ post heq rfl
  · intro w pre post heq
    exact client_evLast_rf w pre _ post heq rfl

/-- Oracle whose third write (the stdin terminator) fails while all
checked writes and both receives succeed. -/
def wTermFailB : World :=
  ⟨[], [strB "DESKTOP_PORT=6"], true, true, true, [true, true, false], [none],
   frameStream (strB "so") ++ frameStream (strB "se")⟩

/-- Counterexample to C1 as stated: the terminator-byte send step
fails (Ev.wroteTerm false), yet both receive steps still run and the
result is 0 — not every step failure short-circuits the later steps. -/
theorem terminator_step_failure_not_shortcircuited :
    runTrampolineClient wTermFailB = (0, true,
      [Ev.opened, Ev.connected 6, Ev.wrote [48, 0], Ev.wrote [48, 0],
       Ev.wroteTerm false, Ev.gotStdout (strB "so"), Ev.outStdout (strB "so"),
       Ev.gotStderr (strB "se"), Ev.outStderr (strB "se")]) := by
  decide

/-- Witness for C1: the end-to-end scenario of the specification, plus
a failed first send ending the trace. -/
theorem trampoline_pipeline_order_and_shortcircuit_witness :
    runTrampolineClient ⟨[strB "status", strB "--porcelain"],
        [strB "DESKTOP_PORT=1234", strB "DESKTOP_USERNAME=alice"], true, true, true,
        [], [some (strB "in")], frameStream (strB "clean") ++ frameStream []⟩
      = (0, true,
        [Ev.opened, Ev.connected 1234,
         Ev.wrote (strB "2" ++ [0]), Ev.wrote (strB "status" ++ [0]),
         Ev.wrote (strB "--porcelain" ++ [0]),
         Ev.wrote (strB "1" ++ [0]), Ev.wrote (strB "DESKTOP_USERNAME=alice" ++ [0]),
         Ev.wrote (strB "in"), Ev.wrote [], Ev.wroteTerm true,
         Ev.gotStdout (strB "clean"), Ev.outStdout (strB "clean"),
         Ev.gotStderr [], Ev.outStderr []])
    ∧ ([] : List Ev) = [] := by
  constructor
  · exact (trampoline_pipeline_order_and_shortcircuit.1
      [strB "status", strB "--porcelain"]
      [strB "DESKTOP_PORT=1234", strB "DESKTOP_USERNAME=alice"] (strB "1234")
      [strB "in"] (strB "clean") [] (by decide) (by decide) (by decide)
      (by decide)).trans (by decide)
  · exact trampoline_pipeline_order_and_shortcircuit.2.1
      ⟨[], [strB "DESKTOP_PORT=7"], true, true, true, [false], [], []⟩
      [Ev.opened, Ev.connected 7] [] [48, 0] (by decide)
